import Mathlib

/-!
Verification of the VRRP core of masa23/keepalivego: the checksum and raw-IP
transport (ha_net.go, package goloba) and the node state machine
(vrrp/core.go, package vrrp).  Machine integers (uint8/uint16/uint32, Go's
int64-backed time.Duration) are modelled as Nat/Int, with explicit `% 2^w`
where the Go code can overflow (the uint32 checksum accumulator, the uint16
multiplication `10*advert.AdvertInt`); byte strings are `List Nat` with every
element below 256.
-/

namespace Goloba

/-- Advertisement represents a VRRPv3 Advertisement packet (vrrp/core.go).
Field names and sizes are per RFC 5798: four uint8 fields, then two uint16
fields, transmitted big-endian. -/
structure Advertisement where
  versionType : Nat
  vrid : Nat
  priority : Nat
  countIPAddrs : Nat
  advertInt : Nat
  checksum : Nat
deriving DecidableEq

/-- Range conditions of the Go field types: uint8 for the first four fields,
uint16 for advertInt and checksum. -/
def Advertisement.wellFormed (a : Advertisement) : Prop :=
  a.versionType < 256 ∧ a.vrid < 256 ∧ a.priority < 256 ∧
    a.countIPAddrs < 256 ∧ a.advertInt < 65536 ∧ a.checksum < 65536

instance (a : Advertisement) : Decidable a.wellFormed := by
  unfold Advertisement.wellFormed
  infer_instance

/-- vrrpAdvertSize is the expected number of bytes in the Advertisement
struct (vrrp/core.go). -/
def vrrpAdvertSize : Nat := 8

/-- vrrpAdvertType is the type of VRRP advertisements to send and receive
(vrrp/core.go). -/
def vrrpAdvertType : Nat := 1

/-- vrrpVersion is the VRRP version this module implements (vrrp/core.go). -/
def vrrpVersion : Nat := 3

/-- vrrpVersionType = vrrpVersion<<4 | vrrpAdvertType (vrrp/core.go); the low
4 bits of vrrpAdvertType do not overlap the shifted version, so the bitwise
or is addition. -/
def vrrpVersionType : Nat := vrrpVersion * 16 + vrrpAdvertType

/-- Modelled from the spec: "a raw IP socket carrier (IP protocol 112)" —
the constant `vrrpPort` is referenced by ha_net.go but declared in a file of
package goloba that is not among the provided sources. -/
def vrrpPort : Nat := 112

/-- binary.Write(buf, binary.BigEndian, advert): the fixed 8-octet big-endian
encoding of an advertisement.  A uint16 field becomes its high byte then its
low byte. -/
def encodeAdvert (a : Advertisement) : List Nat :=
  [a.versionType, a.vrid, a.priority, a.countIPAddrs,
   a.advertInt / 256, a.advertInt % 256, a.checksum / 256, a.checksum % 256]

/-- binary.Read(reader, binary.BigEndian, advert) of an 8-byte payload
(receive in ha_net.go checks the length first, so other shapes never reach
the decoder; they decode to the zero record here). -/
def decodeAdvert (b : List Nat) : Advertisement :=
  match b with
  | [b0, b1, b2, b3, b4, b5, b6, b7] =>
    { versionType := b0, vrid := b1, priority := b2, countIPAddrs := b3,
      advertInt := b4 * 256 + b5, checksum := b6 * 256 + b7 }
  | _ => { versionType := 0, vrid := 0, priority := 0, countIPAddrs := 0,
           advertInt := 0, checksum := 0 }

/-- Every element of the list is a byte value. -/
def bytesWF (l : List Nat) : Prop := ∀ b ∈ l, b < 256

instance (l : List Nat) : Decidable (bytesWF l) := by
  unfold bytesWF
  infer_instance

/-- net.IP values are byte slices; the 12-byte prefix net/ip.go puts before a
4-byte address embedded in a 16-byte slice. -/
def v4InV6 : List Nat := [0, 0, 0, 0, 0, 0, 0, 0, 0, 0, 255, 255]

/-- net.IP.To4: the address as a 4-byte slice when it is an IPv4 address
(4 bytes, or 16 bytes carrying the IPv4-in-IPv6 prefix), nil otherwise. -/
def ipTo4 (ip : List Nat) : Option (List Nat) :=
  if ip.length = 4 then some ip
  else if ip.length = 16 ∧ ip.take 12 = v4InV6 then some (ip.drop 12)
  else none

/-- net.IP.To16: the address as a 16-byte slice, nil when it is neither 4 nor
16 bytes long. -/
def ipTo16 (ip : List Nat) : Option (List Nat) :=
  if ip.length = 4 then some (v4InV6 ++ ip)
  else if ip.length = 16 then some ip
  else none

/-- net.IP.Equal: same length means byte equality; a 4-byte and a 16-byte
address are equal when the long one is the short one with the IPv4-in-IPv6
prefix. -/
def ipEqual (ip x : List Nat) : Bool :=
  if ip.length = x.length then ip == x
  else if ip.length = 4 ∧ x.length = 16 then x.take 12 == v4InV6 && ip == x.drop 12
  else if ip.length = 16 ∧ x.length = 4 then ip.take 12 == v4InV6 && ip.drop 12 == x
  else false

/-- ipv4PseudoHeader (ha_net.go) serialized big-endian by binary.Write:
Src(4) ++ Dst(4) ++ Zero(1) ++ Protocol(1)=112 ++ VRRPLen(2)=8. -/
def pseudoV4 (src dst : List Nat) : List Nat :=
  src ++ dst ++ [0, vrrpPort, vrrpAdvertSize / 256, vrrpAdvertSize % 256]

/-- ipv6PseudoHeader (ha_net.go) serialized big-endian by binary.Write:
Src(16) ++ Dst(16) ++ VRRPLen(4)=8 ++ Zeros(3) ++ NextHeader(1)=112. -/
def pseudoV6 (src dst : List Nat) : List Nat :=
  src ++ dst ++ [0, 0, vrrpAdvertSize / 256, vrrpAdvertSize % 256, 0, 0, 0, vrrpPort]

/-- The summation loop of ipChecksum (ha_net.go): a uint32 accumulator takes
each 16-bit big-endian word (“uint32(b[0])<<8 | uint32(b[1])”, which is
b0*256 + b1 for byte values since the low 8 bits of the shift are zero); a
trailing odd byte is the high byte of a final word. -/
def sumWords (acc : Nat) : List Nat → Nat
  | [] => acc
  | [b0] => (acc + b0 * 256) % 4294967296
  | b0 :: b1 :: rest => sumWords ((acc + (b0 * 256 + b1)) % 4294967296) rest

/-- The carry-folding loop of ipChecksum: “for sum>>16 != 0 { sum = (sum &
0xffff) + (sum >> 16) }”, written with /65536 and %65536 for >>16 and
&0xffff.  The loop strictly decreases the accumulator, so running it with
fuel equal to the starting value reaches the fixpoint. -/
def foldCarryAux : Nat → Nat → Nat
  | 0, s => s
  | fuel + 1, s => if s / 65536 = 0 then s else foldCarryAux fuel (s % 65536 + s / 65536)

def foldCarry (s : Nat) : Nat := foldCarryAux s s

/-- ipChecksum (ha_net.go) calculates the IP checksum of a byte string per
RFC 1071; “uint16(^sum)” is the uint32 complement truncated to 16 bits. -/
def ipChecksum (b : List Nat) : Nat :=
  (4294967295 - foldCarry (sumWords 0 b)) % 65536

/-- checksum (ha_net.go): build the family-appropriate pseudo-header from
To4 or To16 views of the endpoints, append the encoded advertisement, and
apply ipChecksum; none when the endpoints fit neither family. -/
def checksum (a : Advertisement) (srcIP dstIP : List Nat) : Option Nat :=
  match ipTo4 srcIP, ipTo4 dstIP with
  | some src, some dst => some (ipChecksum (pseudoV4 src dst ++ encodeAdvert a))
  | _, _ =>
    match ipTo16 srcIP, ipTo16 dstIP with
    | some src, some dst => some (ipChecksum (pseudoV6 src dst ++ encodeAdvert a))
    | _, _ => none

/-- Specification-level total of the 16-bit words of a byte string (no
accumulator, no uint32 reduction); used to reason about sumWords. -/
def sum16 : List Nat → Nat
  | [] => 0
  | [b0] => b0 * 256
  | b0 :: b1 :: rest => b0 * 256 + b1 + sum16 rest

theorem sum16_append : ∀ l1 l2 : List Nat, l1.length % 2 = 0 →
    sum16 (l1 ++ l2) = sum16 l1 + sum16 l2
  | [], l2, _ => by simp [sum16]
  | [b0], l2, h => by simp at h
  | b0 :: b1 :: rest, l2, h => by
    have ih := sum16_append rest l2 (by simp only [List.length_cons] at h; omega)
    show sum16 (b0 :: b1 :: (rest ++ l2)) = sum16 (b0 :: b1 :: rest) + sum16 l2
    simp only [sum16, ih]
    omega

theorem sum16_le : ∀ l : List Nat, bytesWF l → sum16 l ≤ 65535 * l.length
  | [], _ => by simp [sum16]
  | [b0], h => by
    have hb := h b0 (by simp)
    simp only [sum16, List.length_singleton]
    omega
  | b0 :: b1 :: rest, h => by
    have hb0 := h b0 (by simp)
    have hb1 := h b1 (by simp)
    have ih := sum16_le rest (fun b hb => h b (by simp [hb]))
    simp only [sum16, List.length_cons]
    omega

theorem sumWords_eq : ∀ (l : List Nat) (acc : Nat), acc + sum16 l < 4294967296 →
    sumWords acc l = acc + sum16 l
  | [], acc, _ => by simp [sumWords, sum16]
  | [b0], acc, h => by
    simp only [sumWords, sum16] at *
    omega
  | b0 :: b1 :: rest, acc, h => by
    have hlt : acc + (b0 * 256 + b1) < 4294967296 := by
      simp only [sum16] at h
      omega
    have ih := sumWords_eq rest (acc + (b0 * 256 + b1)) (by simp only [sum16] at h; omega)
    simp only [sumWords, sum16, Nat.mod_eq_of_lt hlt, ih]
    omega

theorem foldCarryAux_le_self : ∀ fuel s : Nat, foldCarryAux fuel s ≤ s
  | 0, s => le_refl s
  | fuel + 1, s => by
    simp only [foldCarryAux]
    split
    · exact le_refl s
    · exact le_trans (foldCarryAux_le_self fuel _) (by omega)

theorem foldCarryAux_le : ∀ fuel s : Nat, s ≤ fuel → foldCarryAux fuel s ≤ 65535
  | 0, s, h => by simp only [foldCarryAux]; omega
  | fuel + 1, s, h => by
    simp only [foldCarryAux]
    split
    · omega
    · exact foldCarryAux_le fuel _ (by omega)

theorem foldCarryAux_mod : ∀ fuel s : Nat, foldCarryAux fuel s % 65535 = s % 65535
  | 0, _ => rfl
  | fuel + 1, s => by
    simp only [foldCarryAux]
    split
    · rfl
    · rw [foldCarryAux_mod fuel]
      omega

theorem foldCarryAux_pos : ∀ fuel s : Nat, 0 < s → 0 < foldCarryAux fuel s
  | 0, s, h => h
  | fuel + 1, s, h => by
    simp only [foldCarryAux]
    split
    · exact h
    · exact foldCarryAux_pos fuel _ (by omega)

theorem foldCarry_le (s : Nat) : foldCarry s ≤ 65535 :=
  foldCarryAux_le s s (le_refl s)

theorem foldCarry_le_self (s : Nat) : foldCarry s ≤ s :=
  foldCarryAux_le_self s s

theorem foldCarry_mod (s : Nat) : foldCarry s % 65535 = s % 65535 :=
  foldCarryAux_mod s s

theorem foldCarry_pos (s : Nat) (h : 0 < s) : 0 < foldCarry s :=
  foldCarryAux_pos s s h

/-- A positive multiple of 65535 folds to exactly 65535. -/
theorem foldCarry_of_multiple (s : Nat) (hpos : 0 < s) (hmod : s % 65535 = 0) :
    foldCarry s = 65535 := by
  have h1 := foldCarry_le s
  have h2 := foldCarry_mod s
  have h3 := foldCarry_pos s hpos
  omega

theorem bytesWF_append {l1 l2 : List Nat} (h1 : bytesWF l1) (h2 : bytesWF l2) :
    bytesWF (l1 ++ l2) := by
  intro b hb
  rcases List.mem_append.mp hb with h | h
  · exact h1 b h
  · exact h2 b h

theorem bytesWF_encode {a : Advertisement} (h : a.wellFormed) :
    bytesWF (encodeAdvert a) := by
  obtain ⟨h1, h2, h3, h4, h5, h6⟩ := h
  intro b hb
  simp only [encodeAdvert, List.mem_cons, List.not_mem_nil, or_false] at hb
  rcases hb with rfl | rfl | rfl | rfl | rfl | rfl | rfl | rfl <;> omega

theorem sum16_encode (a : Advertisement) :
    sum16 (encodeAdvert a) = a.versionType * 256 + a.vrid + a.priority * 256 +
      a.countIPAddrs + a.advertInt + a.checksum := by
  simp only [encodeAdvert, sum16]
  omega

theorem encode_length (a : Advertisement) : (encodeAdvert a).length = 8 := by
  simp [encodeAdvert]

/-- RFC 1071 core fact, stated for any even-length pseudo-header of byte
values: writing `ipChecksum (pseudo ++ encodeAdvert a)` (with the checksum
field zero) into the checksum field makes the checksum over the same bytes
vanish. -/
theorem ipChecksum_self (pseudo : List Nat) (a : Advertisement)
    (hwf : a.wellFormed) (h0 : a.checksum = 0) (hps : bytesWF pseudo)
    (heven : pseudo.length % 2 = 0) (hsmall : pseudo.length ≤ 40) :
    ipChecksum (pseudo ++
      encodeAdvert { a with checksum := ipChecksum (pseudo ++ encodeAdvert a) }) = 0 := by
  obtain ⟨h1, h2, h3, h4, h5, h6⟩ := hwf
  -- the plain word total of the zero-checksum message
  have hps_sum : sum16 pseudo ≤ 65535 * pseudo.length := sum16_le pseudo hps
  have henc : sum16 (encodeAdvert a) ≤ 65535 * 8 := by
    have := sum16_le _ (bytesWF_encode ⟨h1, h2, h3, h4, h5, h6⟩)
    rwa [encode_length a] at this
  have hsplit : sum16 (pseudo ++ encodeAdvert a) =
      sum16 pseudo + sum16 (encodeAdvert a) := sum16_append _ _ heven
  have hraw_lt : sum16 (pseudo ++ encodeAdvert a) < 4294967296 := by
    rw [hsplit]
    omega
  have hsw : sumWords 0 (pseudo ++ encodeAdvert a) = sum16 (pseudo ++ encodeAdvert a) := by
    have := sumWords_eq (pseudo ++ encodeAdvert a) 0 (by omega)
    simpa using this
  have hf_le := foldCarry_le (sum16 (pseudo ++ encodeAdvert a))
  have hf_le_self := foldCarry_le_self (sum16 (pseudo ++ encodeAdvert a))
  have hf_mod := foldCarry_mod (sum16 (pseudo ++ encodeAdvert a))
  -- the computed checksum value
  have hc : ipChecksum (pseudo ++ encodeAdvert a) =
      65535 - foldCarry (sum16 (pseudo ++ encodeAdvert a)) := by
    simp only [ipChecksum, hsw]
    omega
  rw [hc]
  generalize hF : foldCarry (sum16 (pseudo ++ encodeAdvert a)) = F at *
  -- the word total after the checksum field is overwritten
  have henc2 : sum16 (encodeAdvert { a with checksum := 65535 - F }) =
      sum16 (encodeAdvert a) + (65535 - F) := by
    rw [sum16_encode, sum16_encode]
    simp only [h0]
    omega
  have hraw2 : sum16 (pseudo ++ encodeAdvert { a with checksum := 65535 - F }) =
      sum16 (pseudo ++ encodeAdvert a) + (65535 - F) := by
    rw [sum16_append _ _ heven, henc2, hsplit]
    omega
  have hsw2 : sumWords 0 (pseudo ++ encodeAdvert { a with checksum := 65535 - F }) =
      sum16 (pseudo ++ encodeAdvert a) + (65535 - F) := by
    have := sumWords_eq (pseudo ++ encodeAdvert { a with checksum := 65535 - F }) 0
      (by rw [hraw2]; omega)
    rw [hraw2] at this
    simpa using this
  have hfold2 : foldCarry (sum16 (pseudo ++ encodeAdvert a) + (65535 - F)) = 65535 := by
    apply foldCarry_of_multiple
    · omega
    · omega
  simp only [ipChecksum, hsw2, hfold2]

theorem ipTo4_spec {ip s : List Nat} (h : ipTo4 ip = some s) (hwf : bytesWF ip) :
    s.length = 4 ∧ bytesWF s := by
  unfold ipTo4 at h
  split at h
  · cases h
    exact ⟨by assumption, hwf⟩
  · split at h
    · cases h
      refine ⟨?_, fun b hb => hwf b (List.drop_subset 12 ip hb)⟩
      have : ip.length = 16 := by tauto
      simp [this]
    · cases h

theorem ipTo16_spec {ip s : List Nat} (h : ipTo16 ip = some s) (hwf : bytesWF ip) :
    s.length = 16 ∧ bytesWF s := by
  unfold ipTo16 at h
  split at h
  · cases h
    constructor
    · have : ip.length = 4 := by assumption
      simp [v4InV6, this]
    · exact bytesWF_append (by decide) hwf
  · split at h
    · cases h
      exact ⟨by assumption, hwf⟩
    · cases h

/-- C1: for every advertisement A (checksum field zero) and every pair of IP
endpoints of the same family accepted by `checksum`, writing the returned
value into A's checksum field makes the recomputed RFC 1071 checksum over
(pseudo-header || encoded advertisement) — which is exactly what
`checksum` returns for the updated advertisement — equal 0. -/
theorem checksum_self_consistent (a : Advertisement) (src dst : List Nat) (c : Nat)
    (hwf : a.wellFormed) (h0 : a.checksum = 0)
    (hsrc : bytesWF src) (hdst : bytesWF dst)
    (hc : checksum a src dst = some c) :
    checksum { a with checksum := c } src dst = some 0 := by
  unfold checksum at hc ⊢
  cases h4s : ipTo4 src with
  | some s =>
    cases h4d : ipTo4 dst with
    | some d =>
      simp only [h4s, h4d] at hc ⊢
      obtain ⟨hsl, hsw⟩ := ipTo4_spec h4s hsrc
      obtain ⟨hdl, hdw⟩ := ipTo4_spec h4d hdst
      have hps : bytesWF (pseudoV4 s d) := by
        refine bytesWF_append (bytesWF_append hsw hdw) ?_
        decide
      have hlen : (pseudoV4 s d).length = 12 := by
        simp [pseudoV4, hsl, hdl]
      have := ipChecksum_self (pseudoV4 s d) a hwf h0 hps (by rw [hlen]) (by rw [hlen]; omega)
      rw [← Option.some_inj.mp hc, this]
    | none =>
      simp only [h4s, h4d] at hc ⊢
      cases h6s : ipTo16 src with
      | some s =>
        cases h6d : ipTo16 dst with
        | some d =>
          simp only [h6s, h6d] at hc ⊢
          obtain ⟨hsl, hsw⟩ := ipTo16_spec h6s hsrc
          obtain ⟨hdl, hdw⟩ := ipTo16_spec h6d hdst
          have hps : bytesWF (pseudoV6 s d) := by
            refine bytesWF_append (bytesWF_append hsw hdw) ?_
            decide
          have hlen : (pseudoV6 s d).length = 40 := by
            simp [pseudoV6, hsl, hdl]
          have := ipChecksum_self (pseudoV6 s d) a hwf h0 hps (by rw [hlen]) (by rw [hlen])
          rw [← Option.some_inj.mp hc, this]
        | none =>
          simp only [h6s, h6d] at hc
          cases hc
      | none =>
        simp only [h6s] at hc
        cases hc
  | none =>
    simp only [h4s] at hc ⊢
    cases h6s : ipTo16 src with
    | some s =>
      cases h6d : ipTo16 dst with
      | some d =>
        simp only [h6s, h6d] at hc ⊢
        obtain ⟨hsl, hsw⟩ := ipTo16_spec h6s hsrc
        obtain ⟨hdl, hdw⟩ := ipTo16_spec h6d hdst
        have hps : bytesWF (pseudoV6 s d) := by
          refine bytesWF_append (bytesWF_append hsw hdw) ?_
          decide
        have hlen : (pseudoV6 s d).length = 40 := by
          simp [pseudoV6, hsl, hdl]
        have := ipChecksum_self (pseudoV6 s d) a hwf h0 hps (by rw [hlen]) (by rw [hlen])
        rw [← Option.some_inj.mp hc, this]
      | none =>
        simp only [h6s, h6d] at hc
        cases hc
    | none =>
      simp only [h6s] at hc
      cases hc

/-! ## The node state machine (vrrp/core.go) -/

/-- seesaw.HAState values used by the node: HABackup, HAMaster, HAShutdown,
HAError. -/
inductive HAState
  | backup
  | master
  | shutdown
  | error
deriving DecidableEq

/-- The node fields the advertisement handlers read and write: VRID, Priority
and Preempt from the NodeConfig, plus masterDownInterval and
lastMasterAdvertTime.  Durations and instants are Go int64 nanosecond counts,
modelled as Int (the values this program computes stay far below the int64
range). -/
structure NodeState where
  vrid : Nat
  priority : Nat
  preempt : Bool
  masterDownInterval : Int
  lastMasterAdvertTime : Int
deriving DecidableEq

/-- time.Millisecond in nanoseconds. -/
def timeMillisecond : Int := 1000000

/-- resetMasterDownInterval (vrrp/core.go): skewTime = (256 − Priority) ·
advertInterval / 256 with Go's truncating int64 division, masterDownInterval
= 3·advertInterval + skewTime; the field is only assigned when the value
changed (the branch otherwise only logs). -/
def resetMasterDownInterval (n : NodeState) (advertInterval : Int) : NodeState :=
  let skewTime := Int.tdiv ((256 - (n.priority : Int)) * advertInterval) 256
  let masterDownInterval := 3 * advertInterval + skewTime
  if masterDownInterval ≠ n.masterDownInterval then
    { n with masterDownInterval := masterDownInterval }
  else n

/-- The duration backupHandleAdvertisement derives from the peer's AdvertInt
field: time.Millisecond * time.Duration(10*advert.AdvertInt).  AdvertInt is a
uint16 and 10*advert.AdvertInt is uint16 multiplication, hence the % 65536. -/
def peerAdvertInterval (advertInt : Nat) : Int :=
  timeMillisecond * (((10 * advertInt) % 65536 : Nat) : Int)

/-- backupHandleAdvertisement (vrrp/core.go): the switch over a received
advertisement in BACKUP state; returns the next HAState and the updated
node fields, with `now` the value time.Now() would return. -/
def backupHandleAdvertisement (n : NodeState) (a : Advertisement) (now : Int) :
    HAState × NodeState :=
  if a.versionType ≠ vrrpVersionType then (.backup, n)
  else if a.vrid ≠ n.vrid then (.backup, n)
  else if a.priority = 0 then (.master, n)
  else if n.preempt ∧ a.priority < n.priority then (.master, n)
  else
    let n2 := resetMasterDownInterval n (peerAdvertInterval a.advertInt)
    (.backup, { n2 with lastMasterAdvertTime := now })

/-- The advertisement branch of doMasterTasks (vrrp/core.go): the checks on a
received advertisement in MASTER state; a peer priority below our own falls
through to the final "no change" return. -/
def masterHandleAdvertisement (n : NodeState) (a : Advertisement) (now : Int) :
    HAState × NodeState :=
  if a.versionType ≠ vrrpVersionType then (.master, n)
  else if a.vrid ≠ n.vrid then (.master, n)
  else if a.priority = n.priority then (.master, n)
  else if a.priority > n.priority then (.backup, { n with lastMasterAdvertTime := now })
  else (.master, n)

/-- The fields of seesaw.HAStatus that setState touches: State, Since and the
Transitions counter. -/
structure HAStatus where
  state : HAState
  since : Int
  transitions : Nat
deriving DecidableEq

/-- setState (vrrp/core.go): update State, Since and Transitions only when
the state actually changes. -/
def setState (st : HAStatus) (s : HAState) (now : Int) : HAStatus :=
  if st.state ≠ s then { state := s, since := now, transitions := st.transitions + 1 }
  else st

/-- A sequence of setState calls, each with the state requested and the
current time at the call. -/
def applySetStates (st : HAStatus) : List (HAState × Int) → HAStatus
  | [] => st
  | (s, now) :: rest => applySetStates (setState st s now) rest

/-- How many calls of the sequence actually change the state, starting from
`cur`. -/
def countChanges (cur : HAState) : List (HAState × Int) → Nat
  | [] => 0
  | (s, _) :: rest =>
    if s ≠ cur then 1 + countChanges s rest else countChanges cur rest

/-! ## The receive queue (vrrp/core.go) -/

/-- NewNode (vrrp/core.go): recvChannel := make(chan *Advertisement, 20). -/
def recvChannelCapacity : Nat := 20

/-- queueAdvertisement (vrrp/core.go): the buffered channel is a bounded
FIFO; the select's default branch posts a fatal error to errChannel when the
channel is full.  Returns the queue after the call and whether the fatal
error was posted. -/
def queueAdvertisement (q : List Advertisement) (a : Advertisement) :
    List Advertisement × Bool :=
  if q.length < recvChannelCapacity then (q ++ [a], false) else (q, true)

/-- Deliver a batch of advertisements one by one while the consumer is
blocked (nothing dequeues); the flag records whether any delivery posted the
fatal overflow error. -/
def deliverAll (q : List Advertisement) : List Advertisement → List Advertisement × Bool
  | [] => (q, false)
  | a :: rest =>
    let r := queueAdvertisement q a
    let r2 := deliverAll r.1 rest
    (r2.1, r.2 || r2.2)

/-! ## The transport read and write paths (ha_net.go) -/

/-- packet (ha_net.go): information about a received IP packet. -/
structure Packet where
  src : List Nat
  dst : List Nat
  ttl : Nat
  payload : List Nat
deriving DecidableEq

/-- The validation receive (ha_net.go) applies to a successfully read packet:
payload length, self-loop, TTL, then the VRRP checksum recomputed over the
pseudo-header and the decoded advertisement; none models the (nil, nil)
return that silently discards the packet. -/
def receivePacket (laddr : List Nat) (p : Packet) : Option Advertisement :=
  if p.payload.length ≠ vrrpAdvertSize then none
  else
    let advert := decodeAdvert p.payload
    if ipEqual p.src laddr then none
    else if p.ttl ≠ 255 then none
    else
      match checksum advert p.src p.dst with
      | none => none
      | some chksum => if chksum ≠ 0 then none else some advert

/-- The errors readPacket (ha_net.go) can surface: a *net.OpError from the
socket read wrapping a syscall.Errno, or a plain error (any other read
failure, and every fmt.Errorf the packet parsers return). -/
inductive ReadError
  | errnoErr (e : Nat)
  | plainErr
deriving DecidableEq

/-- Linux errno value of syscall.ENOPROTOOPT. -/
def ENOPROTOOPT : Nat := 92

/-- Linux errno value of syscall.EPROTO. -/
def EPROTO : Nat := 71

/-- readIPv4Packet (ha_net.go) applied to the bytes a successful socket read
returned: reject a read below 20 bytes, a version nibble (int(b[0])>>4, i.e.
b[0]/16) other than 4, and a header length ((int(b[0])&0x0f)<<2, i.e.
b[0]%16*4) beyond the read; otherwise extract src, dst, TTL and the payload
bytes after the header. -/
def readIPv4Packet (b : List Nat) : Except ReadError Packet :=
  if b.length < 20 then .error .plainErr
  else if b.getD 0 0 / 16 ≠ 4 then .error .plainErr
  else
    let hdrLen := b.getD 0 0 % 16 * 4
    if hdrLen > b.length then .error .plainErr
    else .ok { src := [b.getD 12 0, b.getD 13 0, b.getD 14 0, b.getD 15 0],
               dst := [b.getD 16 0, b.getD 17 0, b.getD 18 0, b.getD 19 0],
               ttl := b.getD 8 0,
               payload := b.drop hdrLen }

/-- readPacket (ha_net.go) on the IPv4 path: the socket read either fails
with a ReadError or yields the bytes read, which readIPv4Packet parses. -/
def readPacket (read : Except ReadError (List Nat)) : Except ReadError Packet :=
  match read with
  | .error e => .error e
  | .ok b => readIPv4Packet b

/-- The three outcomes of receive (ha_net.go): (advert, nil), the silent
(nil, nil), and (nil, err). -/
inductive ReceiveResult
  | advert (a : Advertisement)
  | ignored
  | failed
deriving DecidableEq

/-- receive (ha_net.go) on the IPv4 path: a *net.OpError wrapping
ENOPROTOOPT or EPROTO is suppressed as (nil, nil); every other readPacket
error — including the fmt.Errorf values of a malformed parse — is returned
as an error; a parsed packet goes through the validation chain. -/
def receive (laddr : List Nat) (read : Except ReadError (List Nat)) : ReceiveResult :=
  match readPacket read with
  | .error (.errnoErr e) =>
    if e = ENOPROTOOPT ∨ e = EPROTO then .ignored else .failed
  | .error .plainErr => .failed
  | .ok p =>
    match receivePacket laddr p with
    | none => .ignored
    | some a => .advert a

/-- send (ha_net.go): when the advertisement's Checksum field is 0 the
checksum over the local/remote pseudo-header is computed and stored into the
caller's record before encoding; a nonzero field is transmitted as-is.  The
result models (the caller's record after the call, the bytes handed to
WriteToIP); none models the checksum-failure error return. -/
def send (laddr raddr : List Nat) (advert : Advertisement) :
    Option (Advertisement × List Nat) :=
  if advert.checksum = 0 then
    match checksum advert laddr raddr with
    | none => none
    | some chksum =>
      some ({ advert with checksum := chksum }, encodeAdvert { advert with checksum := chksum })
  else some (advert, encodeAdvert advert)

/-- resetMasterDownInterval always results in the computed value in the
masterDownInterval field (the guard only skips a redundant assignment). -/
theorem resetMasterDownInterval_spec (n : NodeState) (advertInterval : Int) :
    resetMasterDownInterval n advertInterval =
      { n with masterDownInterval := 3 * advertInterval +
          Int.tdiv ((256 - (n.priority : Int)) * advertInterval) 256 } := by
  show (if 3 * advertInterval + Int.tdiv ((256 - (n.priority : Int)) * advertInterval) 256
        ≠ n.masterDownInterval
      then { n with
              masterDownInterval := 3 * advertInterval +
                Int.tdiv ((256 - (n.priority : Int)) * advertInterval) 256 }
      else n) = _
  split_ifs with h
  · rfl
  · rw [not_ne_iff] at h
    rw [h]

theorem deliverAll_ok : ∀ (batch q : List Advertisement),
    q.length + batch.length ≤ recvChannelCapacity →
    deliverAll q batch = (q ++ batch, false)
  | [], q, _ => by simp [deliverAll]
  | a :: rest, q, h => by
    have hlt : q.length < recvChannelCapacity := by
      simp only [List.length_cons] at h
      omega
    have ih := deliverAll_ok rest (q ++ [a])
      (by simp only [List.length_append, List.length_cons, List.length_nil] at h ⊢; omega)
    simp [deliverAll, queueAdvertisement, hlt, ih]

theorem deliverAll_overflow : ∀ (batch q : List Advertisement),
    q.length ≤ recvChannelCapacity → recvChannelCapacity < q.length + batch.length →
    (deliverAll q batch).2 = true
  | [], q, _, h2 => by
    simp only [List.length_nil] at h2
    omega
  | a :: rest, q, h1, h2 => by
    by_cases hlt : q.length < recvChannelCapacity
    · have ih := deliverAll_overflow rest (q ++ [a])
        (by simp only [List.length_append, List.length_cons, List.length_nil]; omega)
        (by simp only [List.length_append, List.length_cons, List.length_nil] at h2 ⊢; omega)
      simp [deliverAll, queueAdvertisement, hlt, ih]
    · simp [deliverAll, queueAdvertisement, hlt]

theorem applySetStates_transitions : ∀ (l : List (HAState × Int)) (st : HAStatus),
    (applySetStates st l).transitions = st.transitions + countChanges st.state l
  | [], st => by simp [applySetStates, countChanges]
  | (s, now) :: rest, st => by
    by_cases h : s = st.state
    · subst h
      have ih := applySetStates_transitions rest st
      simp [applySetStates, setState, countChanges, ih]
    · have h' : st.state ≠ s := fun he => h he.symm
      have ih := applySetStates_transitions rest
        { state := s, since := now, transitions := st.transitions + 1 }
      simp only [applySetStates, setState, if_pos h', countChanges, if_pos h, ih]
      omega

/-- Re-encoding the advertisement decoded from an 8-byte payload gives back
the payload bytes as received, so validating the checksum over the decoded
record is validating it over the received bytes. -/
theorem encode_decode (b : List Nat) (hl : b.length = 8) (hwf : bytesWF b) :
    encodeAdvert (decodeAdvert b) = b := by
  rcases b with _ | ⟨b0, b⟩
  · simp at hl
  rcases b with _ | ⟨b1, b⟩
  · simp at hl
  rcases b with _ | ⟨b2, b⟩
  · simp at hl
  rcases b with _ | ⟨b3, b⟩
  · simp at hl
  rcases b with _ | ⟨b4, b⟩
  · simp at hl
  rcases b with _ | ⟨b5, b⟩
  · simp at hl
  rcases b with _ | ⟨b6, b⟩
  · simp at hl
  rcases b with _ | ⟨b7, b⟩
  · simp at hl
  rcases b with _ | ⟨b8, b⟩
  · have h5 := hwf b5 (by simp)
    have h7 := hwf b7 (by simp)
    simp only [decodeAdvert, encodeAdvert, List.cons.injEq, and_true, true_and]
    omega
  · simp at hl

/-! ## Claim theorems -/

/-- C1 witness: the self-consistency theorem at a concrete advertisement and
IPv4 endpoint pair; checksum returns 32782 for the zero-checksum record, and
writing 32782 into the field makes the recomputed checksum 0. -/
theorem checksum_self_consistent_witness :
    checksum { versionType := 49, vrid := 1, priority := 100, countIPAddrs := 0,
               advertInt := 100, checksum := 32782 } [10, 0, 0, 1] [224, 0, 0, 18] = some 0 :=
  checksum_self_consistent
    { versionType := 49, vrid := 1, priority := 100, countIPAddrs := 0,
      advertInt := 100, checksum := 0 }
    [10, 0, 0, 1] [224, 0, 0, 18] 32782
    (by decide) rfl (by decide) (by decide) (by decide)

/-- C2: in BACKUP state the checks on a received advertisement apply in
order — wrong version_type (0x31 = 49) or wrong VRID leaves the node BACKUP
unchanged; otherwise priority 0 means an immediate transition to MASTER;
otherwise preempt together with a strictly lower peer priority means MASTER;
in every remaining case the node stays BACKUP with masterDownInterval
recomputed from the peer's advert_int (centiseconds to a duration) and
lastMasterAdvertTime set to the current time. -/
theorem backupHandleAdvertisement_cases :
    ∀ (n : NodeState) (a : Advertisement) (now : Int),
      ((a.versionType ≠ vrrpVersionType ∨ a.vrid ≠ n.vrid) →
        backupHandleAdvertisement n a now = (.backup, n)) ∧
      (a.versionType = vrrpVersionType → a.vrid = n.vrid → a.priority = 0 →
        backupHandleAdvertisement n a now = (.master, n)) ∧
      (a.versionType = vrrpVersionType → a.vrid = n.vrid → a.priority ≠ 0 →
        n.preempt = true → a.priority < n.priority →
        backupHandleAdvertisement n a now = (.master, n)) ∧
      (a.versionType = vrrpVersionType → a.vrid = n.vrid → a.priority ≠ 0 →
        ¬(n.preempt = true ∧ a.priority < n.priority) →
        backupHandleAdvertisement n a now =
          (.backup,
            { n with
                masterDownInterval := 3 * peerAdvertInterval a.advertInt +
                  Int.tdiv ((256 - (n.priority : Int)) * peerAdvertInterval a.advertInt) 256,
                lastMasterAdvertTime := now })) := by
  intro n a now
  refine ⟨?_, ?_, ?_, ?_⟩
  · rintro (h | h)
    · simp [backupHandleAdvertisement, h]
    · by_cases h1 : a.versionType ≠ vrrpVersionType <;>
        simp [backupHandleAdvertisement, h1, h]
  · intro hv hr hp
    simp [backupHandleAdvertisement, hv, hr, hp]
  · intro hv hr hp hpre hlt
    simp [backupHandleAdvertisement, hv, hr, hp, hpre, hlt]
  · intro hv hr hp hpre
    have h1 : ¬(a.versionType ≠ vrrpVersionType) := by simp [hv]
    have h2 : ¬(a.vrid ≠ n.vrid) := by simp [hr]
    simp only [backupHandleAdvertisement, if_neg h1, if_neg h2, if_neg hp, if_neg hpre,
      resetMasterDownInterval_spec]

/-- C3: in MASTER state a received advertisement with wrong version_type or
VRID leaves the node MASTER; an equal peer priority leaves it MASTER (no
IP tie-break); a strictly greater peer priority sets lastMasterAdvertTime to
the current time and moves the node to BACKUP; a strictly lower one leaves
it MASTER. -/
theorem masterHandleAdvertisement_cases :
    ∀ (n : NodeState) (a : Advertisement) (now : Int),
      ((a.versionType ≠ vrrpVersionType ∨ a.vrid ≠ n.vrid) →
        masterHandleAdvertisement n a now = (.master, n)) ∧
      (a.versionType = vrrpVersionType → a.vrid = n.vrid → a.priority = n.priority →
        masterHandleAdvertisement n a now = (.master, n)) ∧
      (a.versionType = vrrpVersionType → a.vrid = n.vrid → a.priority > n.priority →
        masterHandleAdvertisement n a now =
          (.backup, { n with lastMasterAdvertTime := now })) ∧
      (a.versionType = vrrpVersionType → a.vrid = n.vrid → a.priority < n.priority →
        masterHandleAdvertisement n a now = (.master, n)) := by
  intro n a now
  refine ⟨?_, ?_, ?_, ?_⟩
  · rintro (h | h)
    · simp [masterHandleAdvertisement, h]
    · by_cases h1 : a.versionType ≠ vrrpVersionType <;>
        simp [masterHandleAdvertisement, h1, h]
  · intro hv hr hp
    simp [masterHandleAdvertisement, hv, hr, hp]
  · intro hv hr hp
    simp [masterHandleAdvertisement, hv, hr, hp, Nat.ne_of_gt hp, Nat.lt_irrefl]
  · intro hv hr hp
    simp [masterHandleAdvertisement, hv, hr, Nat.ne_of_lt hp, Nat.lt_asymm hp]

/-- C4: the master-down interval is 3·I + ((256 − p)·I)/256 with exact
truncating integer duration arithmetic, and the accepted branch of
backupHandleAdvertisement recomputes it from the interval advertised by the
peer. -/
theorem masterDownInterval_formula :
    ∀ (n : NodeState) (advertInterval : Int) (a : Advertisement) (now : Int),
      ((resetMasterDownInterval n advertInterval).masterDownInterval =
        3 * advertInterval + Int.tdiv ((256 - (n.priority : Int)) * advertInterval) 256) ∧
      (a.versionType = vrrpVersionType → a.vrid = n.vrid → a.priority ≠ 0 →
        ¬(n.preempt = true ∧ a.priority < n.priority) →
        ((backupHandleAdvertisement n a now).2).masterDownInterval =
          3 * peerAdvertInterval a.advertInt +
            Int.tdiv ((256 - (n.priority : Int)) * peerAdvertInterval a.advertInt) 256) := by
  intro n advertInterval a now
  constructor
  · rw [resetMasterDownInterval_spec]
  · intro hv hr hp hpre
    have h1 : ¬(a.versionType ≠ vrrpVersionType) := by simp [hv]
    have h2 : ¬(a.vrid ≠ n.vrid) := by simp [hr]
    simp only [backupHandleAdvertisement, if_neg h1, if_neg h2, if_neg hp, if_neg hpre,
      resetMasterDownInterval_spec]

/-- C5 counterexample: with priority 100 and a 1 s advertisement interval
the computed masterDownInterval is not 1609.375 ms (1609375000 ns), nor
1609 ms in integer millisecond precision. -/
theorem masterDownInterval_spot_check_cex :
    (resetMasterDownInterval
        { vrid := 1, priority := 100, preempt := true,
          masterDownInterval := 0, lastMasterAdvertTime := 0 } 1000000000).masterDownInterval
      ≠ 1609375000 ∧
    Int.tdiv (resetMasterDownInterval
        { vrid := 1, priority := 100, preempt := true,
          masterDownInterval := 0, lastMasterAdvertTime := 0 } 1000000000).masterDownInterval
      timeMillisecond ≠ 1609 := by
  decide

/-- C5 amended: with priority 100 and a 1 s advertisement interval the
computed masterDownInterval is 3609.375 ms — exactly 3609375000 ns —
integer-divided to 3609 ms in millisecond precision. -/
theorem masterDownInterval_spot_check :
    (resetMasterDownInterval
        { vrid := 1, priority := 100, preempt := true,
          masterDownInterval := 0, lastMasterAdvertTime := 0 } 1000000000).masterDownInterval
      = 3609375000 ∧
    Int.tdiv (resetMasterDownInterval
        { vrid := 1, priority := 100, preempt := true,
          masterDownInterval := 0, lastMasterAdvertTime := 0 } 1000000000).masterDownInterval
      timeMillisecond = 3609 := by
  decide

/-- C6: a successfully read packet is silently discarded — receive returns
neither an advertisement nor an error — exactly when its payload length
differs from 8, or its source equals the local address, or its TTL differs
from 255, or the checksum recomputed over the pseudo-header and the received
advertisement is not 0; a packet passing all four checks is returned as the
decoded advertisement. -/
theorem receivePacket_filter :
    ∀ (laddr : List Nat) (p : Packet),
      (receivePacket laddr p = none ↔
        p.payload.length ≠ 8 ∨ ipEqual p.src laddr = true ∨ p.ttl ≠ 255 ∨
          checksum (decodeAdvert p.payload) p.src p.dst ≠ some 0) ∧
      (p.payload.length = 8 → ipEqual p.src laddr = false → p.ttl = 255 →
        checksum (decodeAdvert p.payload) p.src p.dst = some 0 →
        receivePacket laddr p = some (decodeAdvert p.payload)) ∧
      (p.payload.length = 8 → bytesWF p.payload →
        encodeAdvert (decodeAdvert p.payload) = p.payload) := by
  intro laddr p
  refine ⟨?_, ?_, fun hl hwf => encode_decode p.payload hl hwf⟩
  · simp only [receivePacket, vrrpAdvertSize]
    split_ifs with h1 h2 h3
    · simp [h1]
    · simp [h2]
    · simp [h3]
    · cases hck : checksum (decodeAdvert p.payload) p.src p.dst with
      | none => simp [hck, h1, h2, h3]
      | some c =>
        by_cases hc0 : c = 0
        · subst hc0
          simp [hck, h1, h2, h3]
        · simp [hck, hc0, h1, h2, h3]
  · intro hl hs ht hck
    simp [receivePacket, vrrpAdvertSize, hl, hs, ht, hck]

/-- C7 counterexample: a 19-byte IPv4 read is a malformed/short packet, and
receive fails with an error on it instead of returning none. -/
theorem receive_malformed_cex :
    receive [10, 0, 0, 2] (Except.ok (List.replicate 19 0)) = ReceiveResult.failed ∧
    receive [10, 0, 0, 2] (Except.ok (List.replicate 19 0)) ≠ ReceiveResult.ignored := by
  decide

/-- C7 amended: ENOPROTOOPT/EPROTO delivered as OpError errno values are
suppressed (receive returns none and the receiver continues), as are bad
TTL, bad checksum and self-echo on a parsed packet; but malformed or short
packets — an IPv4 read of fewer than 20 bytes, a version nibble other than
4, or a header length exceeding the total length — make readIPv4Packet
return an error that receive propagates as a failure, as does any other
socket error. -/
theorem receive_error_discipline :
    (∀ laddr : List Nat, receive laddr (.error (.errnoErr ENOPROTOOPT)) = .ignored) ∧
    (∀ laddr : List Nat, receive laddr (.error (.errnoErr EPROTO)) = .ignored) ∧
    (∀ (laddr : List Nat) (e : Nat), e ≠ ENOPROTOOPT → e ≠ EPROTO →
      receive laddr (.error (.errnoErr e)) = .failed) ∧
    (∀ laddr : List Nat, receive laddr (.error .plainErr) = .failed) ∧
    (∀ b : List Nat, b.length < 20 → readIPv4Packet b = .error .plainErr) ∧
    (∀ b : List Nat, 20 ≤ b.length → b.getD 0 0 / 16 ≠ 4 →
      readIPv4Packet b = .error .plainErr) ∧
    (∀ b : List Nat, 20 ≤ b.length → b.getD 0 0 % 16 * 4 > b.length →
      readIPv4Packet b = .error .plainErr) ∧
    (∀ (laddr b : List Nat), readIPv4Packet b = .error .plainErr →
      receive laddr (.ok b) = .failed) ∧
    (∀ (laddr b : List Nat) (p : Packet), readIPv4Packet b = .ok p →
      receivePacket laddr p = none → receive laddr (.ok b) = .ignored) := by
  refine ⟨?_, ?_, ?_, ?_, ?_, ?_, ?_, ?_, ?_⟩
  · intro laddr
    simp [receive, readPacket]
  · intro laddr
    simp [receive, readPacket]
  · intro laddr e h1 h2
    simp [receive, readPacket, h1, h2]
  · intro laddr
    simp [receive, readPacket]
  · intro b h
    simp [readIPv4Packet, h]
  · intro b h1 h2
    unfold readIPv4Packet
    rw [if_neg (Nat.not_lt.mpr h1), if_pos h2]
  · intro b h1 h2
    unfold readIPv4Packet
    rw [if_neg (Nat.not_lt.mpr h1)]
    split_ifs with h3
    · rfl
    · exact if_pos h2
  · intro laddr b h
    simp [receive, readPacket, h]
  · intro laddr b p h hnone
    simp [receive, readPacket, h, hnone]

/-- C8: the receive queue is a bounded FIFO of capacity exactly 20 —
enqueueing onto a full queue leaves it unchanged and posts the fatal
overflow error, a batch of at most 20 advertisements delivered while the
consumer is blocked is enqueued in full with no error, and a batch of 21
posts the fatal error. -/
theorem recvQueue_capacity_overflow :
    (∀ (q : List Advertisement) (a : Advertisement), q.length = recvChannelCapacity →
      queueAdvertisement q a = (q, true)) ∧
    (∀ batch : List Advertisement, batch.length ≤ recvChannelCapacity →
      deliverAll [] batch = (batch, false)) ∧
    (∀ batch : List Advertisement, batch.length = 21 →
      (deliverAll [] batch).2 = true) := by
  refine ⟨?_, ?_, ?_⟩
  · intro q a h
    simp [queueAdvertisement, h, recvChannelCapacity]
  · intro batch h
    simpa using deliverAll_ok batch [] (by simpa [recvChannelCapacity] using h)
  · intro batch h
    exact deliverAll_overflow batch [] (by simp [recvChannelCapacity])
      (by simp [h, recvChannelCapacity])

/-- C9: when the advertisement record handed to send has checksum 0, send
computes the checksum over the local/remote pseudo-header, stores it into
the caller's record (the caller observes the mutated field) and encodes that
record; when the field is nonzero every field is left unchanged and the
bytes sent are the record encoded as-is, with no recomputation or
validation. -/
theorem send_checksum_mutation :
    ∀ (laddr raddr : List Nat) (advert : Advertisement),
      (∀ c : Nat, advert.checksum = 0 → checksum advert laddr raddr = some c →
        send laddr raddr advert =
          some ({ advert with checksum := c }, encodeAdvert { advert with checksum := c })) ∧
      (advert.checksum = 0 → checksum advert laddr raddr = none →
        send laddr raddr advert = none) ∧
      (advert.checksum ≠ 0 →
        send laddr raddr advert = some (advert, encodeAdvert advert)) := by
  intro laddr raddr advert
  refine ⟨?_, ?_, ?_⟩
  · intro c h0 hc
    simp [send, h0, hc]
  · intro h0 hc
    simp [send, h0, hc]
  · intro h0
    simp [send, h0]

/-- C10: setState is idempotent — requesting the state the node is already
in leaves State, Since and Transitions unchanged — while requesting a
different state installs it with Since set to the current time and
Transitions incremented by exactly 1; hence over any sequence of setState
calls Transitions counts exactly the actual state changes. -/
theorem setState_spec :
    ∀ (st : HAStatus) (s : HAState) (now : Int) (l : List (HAState × Int)),
      (setState st st.state now = st) ∧
      (s ≠ st.state → setState st s now =
        { state := s, since := now, transitions := st.transitions + 1 }) ∧
      ((applySetStates st l).transitions = st.transitions + countChanges st.state l) := by
  intro st s now l
  refine ⟨?_, ?_, applySetStates_transitions l st⟩
  · simp [setState]
  · intro h
    rw [setState, if_pos (fun he => h he.symm)]

end Goloba
